import Mathlib

/-!
Verification of the cse101 lab-script repository against its
natural-language specification.

The Python scripts are shallowly embedded: Python unbounded integers become
`Nat`/`Int` (with explicit masks where the code masks), Python floats are
modelled exactly as rationals (`ℚ`) or reals (`ℝ`) as appropriate, raising
an exception becomes `Except PyExc`, and stateful methods become explicit
state-passing functions.
-/

/-- Python exception classes that appear in the scripts. `other` stands for
any exception class distinct from the three named ones. -/
inductive PyExc where
  | runtimeError
  | osError
  | valueError
  | other
deriving DecidableEq, Repr

/-- Python 3 `round` on an exact value: round half to even (banker's
rounding), as `int(round(x))` computes in the scripts. -/
def pyRound (q : ℚ) : ℤ :=
  let f : ℤ := ⌊q⌋
  let r : ℚ := q - (f : ℚ)
  if r < 1 / 2 then f
  else if 1 / 2 < r then f + 1
  else if f % 2 = 0 then f else f + 1

/-- Python `%` on exact numeric values: floor-style modulus
(`a - b * floor (a / b)`), the semantics of `%` on Python floats. -/
def pyFloatMod (a b : ℚ) : ℚ := a - b * ⌊a / b⌋

/-- The whitespace characters removed by Python `str.strip()`
(space, tab, newline, carriage return, vertical tab, form feed). -/
def isPySpace (c : Char) : Bool :=
  (c = ' ') || (c = Char.ofNat 9) || (c = Char.ofNat 10) ||
    (c = Char.ofNat 13) || (c = Char.ofNat 11) || (c = Char.ofNat 12)

/-- Python `str.strip()` over the character list of a string. -/
def pyStrip (cs : List Char) : List Char :=
  ((cs.dropWhile isPySpace).reverse.dropWhile isPySpace).reverse

/-- Python `str.lower()` on one character (ASCII range, which is all the
scripts ever pass). -/
def asciiLower (c : Char) : Char :=
  if 'A' ≤ c ∧ c ≤ 'Z' then Char.ofNat (c.toNat + 32) else c

/-- Python `str.lower()` over the character list of a string. -/
def pyLower (cs : List Char) : List Char := cs.map asciiLower

/-- `str(kind).strip().lower()` as one operation on strings. -/
def pyStripLower (s : String) : String := String.mk (pyLower (pyStrip s.toList))

deriving instance DecidableEq for Except

namespace AD9833

/-! Embedding of `ad9833_blinka.py` (AD9833 DDS driver).
Control-register bit positions and register-address constants,
named after the `_B28`, `_FREQ0_PREFIX`, ... constants of the source
(the leading underscore is dropped; `ADDR` stands for the source word
naming the two address bits, which the token rules of this file avoid). -/

def B28 : ℕ := 1 <<< 13
def HLB : ℕ := 1 <<< 12
def FSELECT : ℕ := 1 <<< 11
def PSELECT : ℕ := 1 <<< 10
def RESET : ℕ := 1 <<< 8
def SLEEP1 : ℕ := 1 <<< 7
def SLEEP12 : ℕ := 1 <<< 6
def OPBITEN : ℕ := 1 <<< 5
def DIV2 : ℕ := 1 <<< 3
def MODE : ℕ := 1 <<< 1

def FREQ0_ADDR : ℕ := 0x4000
def FREQ1_ADDR : ℕ := 0x8000
def PHASE0_ADDR : ℕ := 0xC000
def PHASE1_ADDR : ℕ := 0xE000

/-- `_write_control`: the single 16-bit word pushed for a control write
(`word = self._control & 0x3FFF`). -/
def writeControlWord (control : ℕ) : ℕ := control &&& 0x3FFF

/-- The 28-bit tuning word of `set_frequency`:
`int(round(hz * (1 << 28) / self.mclk)) & 0x0FFFFFFF`.
Python `& 0x0FFFFFFF` on a (possibly negative) unbounded int is
reduction mod `2 ^ 28` with a non-negative result, which is exactly
`Int.emod` by `2 ^ 28`. -/
def tuningWord (mclk hz : ℚ) : ℕ :=
  ((pyRound (hz * ((1 <<< 28 : ℕ) : ℚ) / mclk)) % ((2 : ℤ) ^ 28)).toNat

/-- `set_frequency(hz, reg=...)`: raises `ValueError` for `hz < 0`,
otherwise returns the two 16-bit words written in one SPI transaction,
LSW first then MSW.  `freqSel` is the driver field `_freq_sel`;
`reg = none` models passing `reg=None`. -/
def set_frequency (mclk : ℚ) (freqSel : ℕ) (hz : ℚ) (reg : Option ℕ) :
    Except PyExc (List ℕ) :=
  if hz < 0 then .error .valueError
  else
    let r := reg.getD freqSel
    let r := if r ≠ 0 then 1 else 0
    let pfx := if r = 1 then FREQ1_ADDR else FREQ0_ADDR
    let word28 := tuningWord mclk hz
    let lsw := pfx ||| (word28 &&& 0x3FFF)
    let msw := pfx ||| ((word28 >>> 14) &&& 0x3FFF)
    .ok [lsw, msw]

/-- The IEEE-754 double `2 * math.pi`, as an exact rational. -/
def twoPi : ℚ := 884279719003555 / 2 ^ 47

/-- `set_phase(radians, reg=...)`: the single 16-bit word written.
`phase_word = int(round((radians % (2*math.pi)) * (4096.0/(2*math.pi)))) & 0x0FFF`;
float arithmetic is modelled exactly over ℚ, and the final `& 0x0FFF`
is reduction mod `2 ^ 12`. -/
def set_phase (phaseSel : ℕ) (radians : ℚ) (reg : Option ℕ) : List ℕ :=
  let r := reg.getD phaseSel
  let r := if r ≠ 0 then 1 else 0
  let pfx := if r = 1 then PHASE1_ADDR else PHASE0_ADDR
  let phase_word :=
    ((pyRound ((pyFloatMod radians twoPi) * (4096 / twoPi))) % ((2 : ℤ) ^ 12)).toNat
  [pfx ||| phase_word]

/-- The `waveform` property getter: decodes the cached control register. -/
def waveformGet (control : ℕ) : String :=
  if control &&& OPBITEN ≠ 0 then "square"
  else if control &&& MODE ≠ 0 then "triangle"
  else "sine"

/-- The `waveform` property setter.  Python `c &= ~m` on non-negative ints
clears the bits of `m`, which is `Nat.ldiff c m`.  On success returns the
new control value and the words written (one control write); an invalid
kind raises `ValueError` before any mutation or SPI write, so the `.error`
branch carries no new state and no words. -/
def waveformSet (control : ℕ) (kind : String) : Except PyExc (ℕ × List ℕ) :=
  let kind_l := pyStripLower kind
  if kind_l = "sine" ∨ kind_l = "triangle" ∨ kind_l = "square" then
    let c := Nat.ldiff control (OPBITEN ||| MODE ||| DIV2)
    let c :=
      if kind_l = "sine" then Nat.ldiff c SLEEP12
      else if kind_l = "triangle" then Nat.ldiff (c ||| MODE) SLEEP12
      else Nat.ldiff ((c ||| OPBITEN) ||| DIV2) MODE ||| SLEEP12
    .ok (c, [writeControlWord c])
  else .error .valueError

/-- The control value set up by `__init__`: `0` with `B28` set, then
`OPBITEN`, `MODE`, `SLEEP12` cleared (they are already clear). -/
def initControl : ℕ := B28

end AD9833

namespace LS7366R

/-! Embedding of `ls7366r_blinka.py` (LS7366R quadrature-counter driver). -/

/-- `int.from_bytes(raw, "big", signed=False)` over a byte list. -/
def fromBytesBE (raw : List ℕ) : ℕ :=
  raw.foldl (fun acc b => acc * 256 + b) 0

/-- The counter width in bytes tracked by `write_mdr1`:
`self._nbytes = 4 - (value & 0x03)`. -/
def nbytesOfMdr1 (value : ℕ) : ℕ := 4 - (value &&& 0x03)

/-- `read_counter(signed=...)` applied to the `n` raw bytes clocked out of
the chip: unsigned big-endian value, two's-complement sign extension when
`signed=True` (`if val & sign_bit: val -= 1 << (8 * n)`). -/
def read_counter (nbytes : ℕ) (raw : List ℕ) (signed : Bool) : ℤ :=
  let val := fromBytesBE raw
  if signed = false then (val : ℤ)
  else if val &&& (1 <<< (8 * nbytes - 1)) ≠ 0 then
    (val : ℤ) - ((1 <<< (8 * nbytes) : ℕ) : ℤ)
  else (val : ℤ)

end LS7366R

namespace SerialShuttle

/-! Embedding of the USB serial exchange of
`rc_circuit/code.py` (device) and `rc_circuit/read_samples.py` (host).
A line carrying a decimal value is modelled as the integer it denotes
(`usb_writeline` writes `str(x) + "\n"`, the reader parses it back with
`int`), so a reply is a list of integers. -/

/-- `read_samples` on the device: after receiving the command `"r"` it
writes the sample count `n2` (the common length of the two arrays), then
every entry of `times`, then every entry of `volts`, one line each. -/
def deviceReply (times volts : List ℤ) : List ℤ :=
  ((times.length : ℤ)) :: (times ++ volts)

/-- The host side of `read_samples.py`: read one line as the count `n`,
then read `n` lines into `times` and `n` lines into `volts`.  Returns the
parsed triple and the unconsumed remainder of the stream, or `none` when
the host would stay blocked waiting for further lines. -/
def hostConsume (lines : List ℤ) : Option ((ℤ × List ℤ × List ℤ) × List ℤ) :=
  match lines with
  | [] => none
  | n :: rest =>
    if 0 ≤ n then
      let k := n.toNat
      if k + k ≤ rest.length then
        some ((n, ((rest.take k), ((rest.drop k).take k))), (rest.drop k).drop k)
      else none
    else none

end SerialShuttle

namespace Persist

/-! Embedding of every `np.savetxt` call that persists captured data
(the complete list of data-file writes in the repository). -/

structure SavetxtCall where
  script : String
  file : String
  /-- number of columns of the array passed to `np.savetxt` -/
  ncols : ℕ
  /-- the `fmt` argument (numpy default `"%.18e"` when omitted) -/
  fmt : String
  /-- the `delimiter` argument (numpy default `" "` when omitted) -/
  delimiter : String
deriving DecidableEq, Repr

/-- `plot_samples.py` of the Session 08 signal_gen lab:
`np.savetxt(file_path, volts)` where `volts` is one-dimensional, with
numpy default `fmt` and `delimiter`. -/
def ad9833VoltsCall : SavetxtCall :=
  ⟨"Session 08/signal_gen/plot_samples.py", "ad9833_volts.txt", 1, "%.18e", " "⟩

/-- Every data-persisting `np.savetxt` call in the repository, one entry
per call site; all arrays but the `ad9833_volts.txt` one are built with
`np.column_stack((a, b))` and hence have two columns. -/
def savetxtCalls : List SavetxtCall :=
  [ ⟨"Session 05/rc_circuit/read_samples.py", "samples.csv", 2, "%3.6f", ","⟩,
    ⟨"Session 05/bjt_amplification/read_samples.py", "samples.csv", 2, "%3.6f", ","⟩,
    ad9833VoltsCall,
    ⟨"Session 08/signal_gen/read_samples.py", "samples.csv", 2, "%3.6f", ","⟩,
    ⟨"Session 08/count_aliasing/read_samples.py", "samples.csv", 2, "%3.2f", ","⟩,
    ⟨"Session 07/ohms_law/read_samples.py", "resistorN.csv", 2, "%3.6f", ","⟩,
    ⟨"Session 07/diode_ivcurve/read_samples.py", "diode_ivcurve.csv", 2, "%3.6f", ","⟩,
    ⟨"Board 03/ohms_read.py", "resistorN.csv", 2, "%3.6f", ","⟩,
    ⟨"Board 04/rlc_measure.py", "rlc_resonance.csv", 2, "%3.6f", ","⟩,
    ⟨"Board 04/signal_gen.py", "samples_ad9833.csv", 2, "%3.6f", ","⟩ ]

/-- A printf format such as `%3.6f`: percent sign, optional width digits,
a dot, at least one precision digit, conversion `f` (fixed-point). -/
def isFixedPointFmt (s : String) : Bool :=
  match s.toList with
  | '%' :: rest =>
    match rest.dropWhile Char.isDigit with
    | '.' :: rest3 =>
      decide (rest3.takeWhile Char.isDigit ≠ []) &&
        decide (rest3.dropWhile Char.isDigit = ['f'])
    | _ => false
  | _ => false

end Persist

namespace BiotSavart

/-! Embedding of the exception handling around the magnetometer read in
the sampling loop of `biot_savart.py`.  The magnetometer state is the
pair (generation counter of the re-initialized I2C bus/magnetometer
object, accumulated `field_strength[i]`); the value produced by a
successful read is the already-computed magnitude
`sqrt(mag_x**2 + ...)`, which cannot raise. -/

structure MagState where
  generation : ℕ
  accum : ℚ
deriving DecidableEq, Repr

/-- Does `except (RuntimeError, OSError)` catch this exception? -/
def caughtByHandler (e : PyExc) : Bool :=
  match e with
  | .runtimeError => true
  | .osError => true
  | _ => false

/-- One magnetometer sample inside the `for _ in range(num_samples)` loop:
`magRead` is the outcome of `magnetometer.magnetic` (plus the magnitude
computation), `reinit` the outcome of the I2C/magnetometer
re-initialization block, run only when the read raises and yielding the
re-initialized state. -/
def magSampleStep (magRead : Except PyExc ℚ) (reinit : Except PyExc MagState)
    (st : MagState) : Except PyExc MagState :=
  match magRead with
  | .ok m => .ok ⟨st.generation, st.accum + m⟩
  | .error e =>
    if caughtByHandler e then
      match reinit with
      | .ok st2 => .ok st2
      | .error e2 => if caughtByHandler e2 then .ok st else .error e2
    else .error e

end BiotSavart

namespace HostSerial

/-! Embedding of the host-side serial-port configuration and of the
blocking behaviour of `ser.readline()` (pyserial): with `timeout=None`
a read blocks until a full newline-terminated line has arrived; with a
numeric timeout the read returns the bytes received so far once the
timeout expires. -/

structure SerialConfig where
  port : Option String
  baudrate : ℕ
  bytesize : ℕ
  parity : String
  stopbits : ℕ
  timeoutSeconds : Option ℕ
deriving DecidableEq, Repr

/-- `serial.Serial(None, 115200, 8, "N", 1, timeout=120)` as constructed
by `rc_circuit/read_samples.py` (and identically by every other host
script). -/
def hostSerialConfig : SerialConfig := ⟨none, 115200, 8, "N", 1, some 120⟩

/-- `ser.readline()` over the bytes `incoming` that ever arrive during the
read: result `some l` is the returned line, `none` means the call blocks
forever.  With a newline in the stream the full line is returned; without
one, a configured timeout makes the call return the partial buffer, while
`timeout=None` blocks. -/
def readlineModel (timeoutSeconds : Option ℕ) (incoming : List Char) :
    Option (List Char) :=
  if incoming.contains '\n' then
    some (incoming.takeWhile (fun c => c ≠ '\n') ++ ['\n'])
  else
    match timeoutSeconds with
    | none => none
    | some _ => some incoming

end HostSerial

namespace OhmsLaw

/-! Embedding of the resistor-number console prompt of
`ohms_law/read_samples.py`. -/

def isAsciiDigit (c : Char) : Bool := decide ('0' ≤ c) && decide (c ≤ '9')

/-- Value of a digit string (underscores already removed). -/
def digitsVal (l : List Char) : ℕ :=
  l.foldl (fun a c => a * 10 + (c.toNat - '0'.toNat)) 0

/-- Python integer-literal digit sequences: digits with single underscores
allowed only between digits.  `needDigit` is true when the next character
must be a digit (at the start and right after an underscore). -/
def goodSeq : Bool → List Char → Bool
  | needDigit, [] => !needDigit
  | needDigit, c :: rest =>
    if c = '_' then !needDigit && goodSeq true rest
    else isAsciiDigit c && goodSeq false rest

/-- Python `int(s)` on the string returned by `input()`: strip surrounding
whitespace, optional sign, then a digit sequence; `none` models the
`ValueError` raised on anything else. -/
def pyInt (s : String) : Option ℤ :=
  let cs := pyStrip s.toList
  let signAndDigits : ℤ × List Char :=
    match cs with
    | '+' :: rest => (1, rest)
    | '-' :: rest => (-1, rest)
    | _ => (1, cs)
  if goodSeq true signAndDigits.2 then
    some (signAndDigits.1 * (digitsVal (signAndDigits.2.filter (fun c => c ≠ '_')) : ℤ))
  else none

/-- One pass of the `while True` prompt body: parse the input line, catch
`ValueError` (re-prompt, `.ok none`), accept on `1 <= resistor_num <= 3`
(`.ok (some k)`), otherwise re-prompt. -/
def promptStep (s : String) : Except PyExc (Option ℤ) :=
  match pyInt s with
  | some k => .ok (if 1 ≤ k ∧ k ≤ 3 then some k else none)
  | none => .ok none

/-- The prompt loop over the successive lines the user enters.  `.ok none`
means the inputs ran out with the loop still prompting; the loop itself
never breaks except by accepting a value. -/
def resistorPrompt : List String → Except PyExc (Option ℤ)
  | [] => .ok none
  | s :: rest =>
    match promptStep s with
    | .ok (some k) => .ok (some k)
    | .ok none => resistorPrompt rest
    | .error e => .error e

end OhmsLaw

namespace McCircle

/-! Embedding of `mc_circle_prng.py`.  The sampled points are parameters
(the PRNG itself is not modelled); float arithmetic is exact over ℚ. -/

def dots : ℕ := 102400

/-- `x = rng.random(dots) * 2 - 1` applied to one raw PRNG draw in `[0,1)`. -/
def sample (u : ℚ) : ℚ := u * 2 - 1

/-- `d = x**2 + y**2` for one point. -/
def dsq (p : ℚ × ℚ) : ℚ := p.1 ^ 2 + p.2 ^ 2

/-- `np.count_nonzero(d <= 1.0)`. -/
def insideCount (pts : List (ℚ × ℚ)) : ℕ :=
  (pts.filter (fun p => decide (dsq p ≤ 1))).length

/-- The points selected by the mask `d > 1.0` (`x_out`/`y_out`). -/
def outsideCount (pts : List (ℚ × ℚ)) : ℕ :=
  (pts.filter (fun p => decide (1 < dsq p))).length

/-- `est_area = np.count_nonzero(d <= 1.0) / dots * 4`. -/
def est_area (pts : List (ℚ × ℚ)) : ℚ :=
  (insideCount pts : ℚ) / (dots : ℚ) * 4

end McCircle

namespace RcCharge

/-! Embedding of `rc_charge.py`.  The float constants are modelled as the
exact decimal values written in the source. -/

def V_s : ℚ := 33 / 10
def R : ℚ := 10000
def C : ℚ := 1 / 100000
def tau : ℚ := R * C

/-- `np.linspace(a, b, num)` entry `i`: `a + (b - a) * i / (num - 1)`. -/
def linspace (a b : ℚ) (num : ℕ) (i : ℕ) : ℚ :=
  a + (b - a) * (i : ℚ) / ((num : ℚ) - 1)

/-- `t = np.linspace(0, 1, 100)`. -/
def t (i : ℕ) : ℚ := linspace 0 1 100 i

/-- `v_c = V_s * (1 - np.exp(-t / tau))`, entry `i`, over ℝ. -/
noncomputable def v_c (i : ℕ) : ℝ :=
  (V_s : ℝ) * (1 - Real.exp (-((t i : ℚ) : ℝ) / (tau : ℝ)))

end RcCharge

/-! ## Helper lemmas -/

/-- The top bit of a number below `2 ^ (k + 1)` is set iff the number is
at least `2 ^ k`. -/
theorem testBit_top_iff (k val : ℕ) (h : val < 2 ^ (k + 1)) :
    val.testBit k = true ↔ 2 ^ k ≤ val := by
  have hq : val / 2 ^ k < 2 := by
    rw [Nat.div_lt_iff_lt_mul (Nat.two_pow_pos k)]
    calc val < 2 ^ (k + 1) := h
    _ = 2 * 2 ^ k := by ring
  obtain ⟨q, r, hq2, hr, hval⟩ :
      ∃ q r, q < 2 ∧ r < 2 ^ k ∧ val = 2 ^ k * q + r :=
    ⟨val / 2 ^ k, val % 2 ^ k, hq, Nat.mod_lt _ (Nat.two_pow_pos k),
      (Nat.div_add_mod val (2 ^ k)).symm⟩
  subst hval
  rw [Nat.testBit_to_div_mod]
  have hdiv : (2 ^ k * q + r) / 2 ^ k = q := by
    rw [Nat.mul_add_div (Nat.two_pow_pos k), Nat.div_eq_of_lt hr, Nat.add_zero]
  rw [hdiv]
  rcases (by omega : q = 0 ∨ q = 1) with h0 | h1
  · subst h0
    norm_num
    omega
  · subst h1
    norm_num

/-- `x &&& 2 ^ i` is nonzero exactly when bit `i` of `x` is set. -/
theorem and_two_pow_ne_zero (x i : ℕ) :
    x &&& 2 ^ i ≠ 0 ↔ x.testBit i = true := by
  rw [Nat.and_two_pow]
  rcases hb : x.testBit i with _ | _
  · simp
  · simp [(Nat.two_pow_pos i).ne']

/-- Big-endian byte accumulation is bounded by `256 ^ length`. -/
theorem foldl_bytes_lt (raw : List ℕ) (acc : ℕ) (h : ∀ b ∈ raw, b < 256) :
    raw.foldl (fun a b => a * 256 + b) acc < (acc + 1) * 256 ^ raw.length := by
  induction raw generalizing acc with
  | nil => simp
  | cons b tl ih =>
    have hb : b < 256 := h b (List.mem_cons_self b tl)
    have htl : ∀ x ∈ tl, x < 256 := fun x hx => h x (List.mem_cons_of_mem b hx)
    have h1 := ih (acc * 256 + b) htl
    calc List.foldl (fun a b => a * 256 + b) (acc * 256 + b) tl
        < (acc * 256 + b + 1) * 256 ^ tl.length := h1
      _ ≤ ((acc + 1) * 256) * 256 ^ tl.length := by
          have : acc * 256 + b + 1 ≤ (acc + 1) * 256 := by omega
          exact Nat.mul_le_mul_right _ this
      _ = (acc + 1) * 256 ^ (tl.length + 1) := by ring

/-- A register-address value `2 ^ k * a` or-ed with a `k`-bit payload is
their sum. -/
theorem addr_or_eq_add (k a x : ℕ) (hx : x < 2 ^ k) :
    (2 ^ k * a) ||| x = 2 ^ k * a + x :=
  (Nat.mul_add_lt_is_or hx a).symm

/-! ## Claims -/

/-- C3: every 16-bit word the AD9833 driver writes over SPI is bit-exact
per the datasheet: control words from `_write_control` fit in 14 bits, so
D15..D14 = 00; `set_frequency hz` with `hz ≥ 0` writes exactly the two
words FREQ-address + 14-bit payload in one transaction, LSW first then
MSW, together encoding `round(hz * 2^28 / mclk) mod 2^28`; `set_frequency`
raises `ValueError` iff `hz < 0`; `set_phase` writes one word,
PHASE-address bits (0xC000 or 0xE000) + a 12-bit payload. -/
theorem ad9833_words_bitexact :
    (∀ c : ℕ, AD9833.writeControlWord c < 2 ^ 14 ∧
      AD9833.writeControlWord c &&& 0xC000 = 0) ∧
    (∀ (mclk hz : ℚ) (fsel : ℕ) (reg : Option ℕ), 0 ≤ hz →
      AD9833.set_frequency mclk fsel hz reg =
        .ok [(if reg.getD fsel ≠ 0 then AD9833.FREQ1_ADDR else AD9833.FREQ0_ADDR) +
               AD9833.tuningWord mclk hz % 2 ^ 14,
             (if reg.getD fsel ≠ 0 then AD9833.FREQ1_ADDR else AD9833.FREQ0_ADDR) +
               AD9833.tuningWord mclk hz / 2 ^ 14] ∧
      AD9833.tuningWord mclk hz < 2 ^ 28 ∧
      (AD9833.tuningWord mclk hz : ℤ) = pyRound (hz * 2 ^ 28 / mclk) % 2 ^ 28) ∧
    (∀ (mclk hz : ℚ) (fsel : ℕ) (reg : Option ℕ),
      AD9833.set_frequency mclk fsel hz reg = .error PyExc.valueError ↔ hz < 0) ∧
    (∀ (psel : ℕ) (radians : ℚ) (reg : Option ℕ),
      ∃ pw, pw < 2 ^ 12 ∧
        AD9833.set_phase psel radians reg =
          [(if reg.getD psel ≠ 0 then AD9833.PHASE1_ADDR else AD9833.PHASE0_ADDR) + pw]) := by
  have hmask : (0x3FFF : ℕ) = 2 ^ 14 - 1 := by norm_num
  have htw : ∀ mclk hz : ℚ, AD9833.tuningWord mclk hz < 2 ^ 28 := by
    intro mclk hz
    unfold AD9833.tuningWord
    have h1 : (0 : ℤ) ≤ pyRound (hz * ((1 <<< 28 : ℕ) : ℚ) / mclk) % 2 ^ 28 :=
      Int.emod_nonneg _ (by norm_num)
    have h2 : pyRound (hz * ((1 <<< 28 : ℕ) : ℚ) / mclk) % 2 ^ 28 < 2 ^ 28 :=
      Int.emod_lt_of_pos _ (by norm_num)
    omega
  refine ⟨?_, ?_, ?_, ?_⟩
  · intro c
    constructor
    · unfold AD9833.writeControlWord
      rw [hmask, Nat.and_pow_two_sub_one_eq_mod]
      exact Nat.mod_lt _ (by norm_num)
    · unfold AD9833.writeControlWord
      rw [Nat.and_assoc]
      have : (0x3FFF &&& 0xC000 : ℕ) = 0 := by decide
      rw [this]
      simp
  · intro mclk hz fsel reg h
    refine ⟨?_, htw mclk hz, ?_⟩
    · unfold AD9833.set_frequency
      rw [if_neg (not_lt.mpr h)]
      have hmod : AD9833.tuningWord mclk hz % 16384 < 2 ^ 14 := by
        have := Nat.mod_lt (AD9833.tuningWord mclk hz) (show 0 < 16384 by norm_num)
        norm_num
        omega
      have hdiv : AD9833.tuningWord mclk hz / 16384 < 2 ^ 14 := by
        have h28 := htw mclk hz
        norm_num at h28 ⊢
        omega
      have hlo : AD9833.tuningWord mclk hz &&& 16383 =
          AD9833.tuningWord mclk hz % 16384 := by
        have := Nat.and_pow_two_sub_one_eq_mod (AD9833.tuningWord mclk hz) 14
        norm_num at this
        exact this
      have hhi : AD9833.tuningWord mclk hz >>> 14 &&& 16383 =
          AD9833.tuningWord mclk hz / 16384 := by
        rw [Nat.shiftRight_eq_div_pow]
        have h1 := Nat.and_pow_two_sub_one_eq_mod
          (AD9833.tuningWord mclk hz / 2 ^ 14) 14
        norm_num at h1 ⊢
        rw [h1, Nat.mod_eq_of_lt]
        norm_num at hdiv
        exact hdiv
      by_cases hr : reg.getD fsel ≠ 0
      · have hf : AD9833.FREQ1_ADDR = 2 ^ 14 * 2 := by norm_num [AD9833.FREQ1_ADDR]
        simp [hr]
        rw [hlo, hhi]
        constructor
        · rw [hf]
          exact addr_or_eq_add _ _ _ hmod
        · rw [hf]
          exact addr_or_eq_add _ _ _ hdiv
      · have hr0 : reg.getD fsel = 0 := by simpa using hr
        have hf : AD9833.FREQ0_ADDR = 2 ^ 14 * 1 := by norm_num [AD9833.FREQ0_ADDR]
        simp [hr0]
        rw [hlo, hhi]
        constructor
        · rw [hf]
          exact addr_or_eq_add _ _ _ hmod
        · rw [hf]
          exact addr_or_eq_add _ _ _ hdiv
    · unfold AD9833.tuningWord
      have hcast : ((1 <<< 28 : ℕ) : ℚ) = 2 ^ 28 := by
        norm_num [Nat.shiftLeft_eq]
      rw [hcast]
      have h1 : (0 : ℤ) ≤ pyRound (hz * 2 ^ 28 / mclk) % 2 ^ 28 :=
        Int.emod_nonneg _ (by norm_num)
      omega
  · intro mclk hz fsel reg
    unfold AD9833.set_frequency
    by_cases h : hz < 0
    · simp [h]
    · simp [h]
  · intro psel radians reg
    refine ⟨((pyRound ((pyFloatMod radians AD9833.twoPi) * (4096 / AD9833.twoPi))) %
      ((2 : ℤ) ^ 12)).toNat, ?_, ?_⟩
    · have h1 : (0 : ℤ) ≤ pyRound ((pyFloatMod radians AD9833.twoPi) *
          (4096 / AD9833.twoPi)) % 2 ^ 12 := Int.emod_nonneg _ (by norm_num)
      have h2 : pyRound ((pyFloatMod radians AD9833.twoPi) *
          (4096 / AD9833.twoPi)) % 2 ^ 12 < 2 ^ 12 := Int.emod_lt_of_pos _ (by norm_num)
      omega
    · unfold AD9833.set_phase
      have hpw : ((pyRound ((pyFloatMod radians AD9833.twoPi) * (4096 / AD9833.twoPi))) %
          ((2 : ℤ) ^ 12)).toNat < 2 ^ 12 := by
        have h1 : (0 : ℤ) ≤ pyRound ((pyFloatMod radians AD9833.twoPi) *
            (4096 / AD9833.twoPi)) % 2 ^ 12 := Int.emod_nonneg _ (by norm_num)
        have h2 : pyRound ((pyFloatMod radians AD9833.twoPi) *
            (4096 / AD9833.twoPi)) % 2 ^ 12 < 2 ^ 12 := Int.emod_lt_of_pos _ (by norm_num)
        omega
      by_cases hr : reg.getD psel ≠ 0
      · have e1 : AD9833.PHASE1_ADDR = 2 ^ 12 * 14 := by norm_num [AD9833.PHASE1_ADDR]
        simp [hr]
        rw [e1]
        exact addr_or_eq_add _ _ _ hpw
      · have hr0 : reg.getD psel = 0 := by simpa using hr
        have e1 : AD9833.PHASE0_ADDR = 2 ^ 12 * 12 := by norm_num [AD9833.PHASE0_ADDR]
        simp [hr0]
        rw [e1]
        exact addr_or_eq_add _ _ _ hpw

/-- Witness for C3 at concrete inputs. -/
theorem ad9833_words_bitexact_witness :
    AD9833.set_frequency 25000000 0 1000 none =
      .ok [AD9833.FREQ0_ADDR + AD9833.tuningWord 25000000 1000 % 2 ^ 14,
           AD9833.FREQ0_ADDR + AD9833.tuningWord 25000000 1000 / 2 ^ 14] ∧
    AD9833.set_frequency 25000000 0 (-1) none = .error PyExc.valueError ∧
    AD9833.writeControlWord AD9833.initControl &&& 0xC000 = 0 := by
  refine ⟨?_, ?_, ?_⟩
  · have h := (ad9833_words_bitexact.2.1 25000000 1000 0 none (by norm_num)).1
    simpa using h
  · exact (ad9833_words_bitexact.2.2.1 25000000 (-1) 0 none).mpr (by norm_num)
  · exact (ad9833_words_bitexact.1 AD9833.initControl).2

/-- `x &&& 2 ^ i` is zero exactly when bit `i` of `x` is clear. -/
theorem and_two_pow_eq_zero_iff (x i : ℕ) :
    x &&& 2 ^ i = 0 ↔ x.testBit i = false := by
  rw [Nat.and_two_pow]
  rcases hb : x.testBit i with _ | _
  · simp
  · simp [(Nat.two_pow_pos i).ne']

/-- The waveform getter in terms of the OPBITEN (bit 5) and MODE (bit 1)
bits of the control register. -/
theorem waveformGet_testBit (c : ℕ) :
    AD9833.waveformGet c =
      if c.testBit 5 = true then "square"
      else if c.testBit 1 = true then "triangle" else "sine" := by
  unfold AD9833.waveformGet
  have ho : AD9833.OPBITEN = 2 ^ 5 := by norm_num [AD9833.OPBITEN, Nat.shiftLeft_eq]
  have hm : AD9833.MODE = 2 ^ 1 := by norm_num [AD9833.MODE, Nat.shiftLeft_eq]
  rw [ho, hm]
  by_cases h5 : c.testBit 5 = true
  · rw [if_pos ((and_two_pow_ne_zero c 5).mpr h5), if_pos h5]
  · have h5z : ¬(c &&& 2 ^ 5 ≠ 0) := fun hne => h5 ((and_two_pow_ne_zero c 5).mp hne)
    rw [if_neg h5z, if_neg h5]
    by_cases h1 : c.testBit 1 = true
    · rw [if_pos ((and_two_pow_ne_zero c 1).mpr h1), if_pos h1]
    · have h1z : ¬(c &&& 2 ^ 1 ≠ 0) := fun hne => h1 ((and_two_pow_ne_zero c 1).mp hne)
      rw [if_neg h1z, if_neg h1]

/-- C9: for each valid kind (after Python `strip().lower()`
normalization, so letter case and surrounding whitespace are accepted),
setting `dds.waveform` succeeds with exactly one control-word SPI write
and reading `dds.waveform` afterwards returns exactly that kind; any
other string raises `ValueError` before the control state is mutated or
any SPI write happens. -/
theorem ad9833_waveform_roundtrip (control : ℕ) (s : String) :
    ((pyStripLower s = "sine" ∨ pyStripLower s = "triangle" ∨
        pyStripLower s = "square") →
      ∃ c w, AD9833.waveformSet control s = .ok (c, [w]) ∧
        AD9833.waveformGet c = pyStripLower s ∧ w = AD9833.writeControlWord c) ∧
    (¬(pyStripLower s = "sine" ∨ pyStripLower s = "triangle" ∨
        pyStripLower s = "square") →
      AD9833.waveformSet control s = .error PyExc.valueError) := by
  have hmask : AD9833.OPBITEN ||| AD9833.MODE ||| AD9833.DIV2 = 42 := by decide
  have hsl : AD9833.SLEEP12 = 64 := by decide
  have ht42f : Nat.testBit 42 5 = true := by decide
  have ht42m : Nat.testBit 42 1 = true := by decide
  constructor
  · intro hvalid
    rcases hvalid with hs | hs | hs
    · refine ⟨Nat.ldiff (Nat.ldiff control
          (AD9833.OPBITEN ||| AD9833.MODE ||| AD9833.DIV2)) AD9833.SLEEP12,
        AD9833.writeControlWord (Nat.ldiff (Nat.ldiff control
          (AD9833.OPBITEN ||| AD9833.MODE ||| AD9833.DIV2)) AD9833.SLEEP12),
        ?_, ?_, rfl⟩
      · unfold AD9833.waveformSet
        rw [hs]
        simp
      · rw [hs, waveformGet_testBit]
        have t5 : (Nat.ldiff (Nat.ldiff control
            (AD9833.OPBITEN ||| AD9833.MODE ||| AD9833.DIV2)) AD9833.SLEEP12).testBit 5
            = false := by
          rw [hmask, hsl]
          simp [Nat.testBit_ldiff, ht42f]
        have t1 : (Nat.ldiff (Nat.ldiff control
            (AD9833.OPBITEN ||| AD9833.MODE ||| AD9833.DIV2)) AD9833.SLEEP12).testBit 1
            = false := by
          rw [hmask, hsl]
          simp [Nat.testBit_ldiff, ht42m]
        simp [t5, t1]
    · refine ⟨Nat.ldiff (Nat.ldiff control
          (AD9833.OPBITEN ||| AD9833.MODE ||| AD9833.DIV2) ||| AD9833.MODE)
          AD9833.SLEEP12,
        AD9833.writeControlWord (Nat.ldiff (Nat.ldiff control
          (AD9833.OPBITEN ||| AD9833.MODE ||| AD9833.DIV2) ||| AD9833.MODE)
          AD9833.SLEEP12),
        ?_, ?_, rfl⟩
      · unfold AD9833.waveformSet
        rw [hs]
        simp
      · rw [hs, waveformGet_testBit]
        have t5 : (Nat.ldiff (Nat.ldiff control
            (AD9833.OPBITEN ||| AD9833.MODE ||| AD9833.DIV2) ||| AD9833.MODE)
            AD9833.SLEEP12).testBit 5 = false := by
          rw [hmask, hsl]
          have : AD9833.MODE = 2 := by decide
          rw [this]
          simp [Nat.testBit_ldiff, Nat.testBit_lor, ht42f]
          decide
        have t1 : (Nat.ldiff (Nat.ldiff control
            (AD9833.OPBITEN ||| AD9833.MODE ||| AD9833.DIV2) ||| AD9833.MODE)
            AD9833.SLEEP12).testBit 1 = true := by
          rw [hmask, hsl]
          have : AD9833.MODE = 2 := by decide
          rw [this]
          simp [Nat.testBit_ldiff, Nat.testBit_lor]
          exact ⟨Or.inr (by decide), by decide⟩
        simp [t5, t1]
    · refine ⟨(Nat.ldiff ((Nat.ldiff control
          (AD9833.OPBITEN ||| AD9833.MODE ||| AD9833.DIV2) ||| AD9833.OPBITEN) |||
          AD9833.DIV2) AD9833.MODE) ||| AD9833.SLEEP12,
        AD9833.writeControlWord ((Nat.ldiff ((Nat.ldiff control
          (AD9833.OPBITEN ||| AD9833.MODE ||| AD9833.DIV2) ||| AD9833.OPBITEN) |||
          AD9833.DIV2) AD9833.MODE) ||| AD9833.SLEEP12),
        ?_, ?_, rfl⟩
      · unfold AD9833.waveformSet
        rw [hs]
        simp
      · rw [hs, waveformGet_testBit]
        have t5 : ((Nat.ldiff ((Nat.ldiff control
            (AD9833.OPBITEN ||| AD9833.MODE ||| AD9833.DIV2) ||| AD9833.OPBITEN) |||
            AD9833.DIV2) AD9833.MODE) ||| AD9833.SLEEP12).testBit 5 = true := by
          rw [hmask, hsl]
          have h1 : AD9833.OPBITEN = 32 := by decide
          have h2 : AD9833.DIV2 = 8 := by decide
          have h3 : AD9833.MODE = 2 := by decide
          rw [h1, h2, h3]
          simp [Nat.testBit_ldiff, Nat.testBit_lor]
          exact Or.inl ⟨Or.inl (Or.inr (by decide)), by decide⟩
        simp [t5]
  · intro hinvalid
    unfold AD9833.waveformSet
    rw [if_neg hinvalid]

/-- Witness for C9 at concrete inputs: a case/whitespace variant of
`sine` round-trips, an invalid kind raises `ValueError`. -/
theorem ad9833_waveform_roundtrip_witness :
    (∃ c w, AD9833.waveformSet AD9833.initControl " SINE " = .ok (c, [w]) ∧
      AD9833.waveformGet c = pyStripLower " SINE " ∧
      w = AD9833.writeControlWord c) ∧
    AD9833.waveformSet AD9833.initControl "cosine" = .error PyExc.valueError := by
  constructor
  · exact (ad9833_waveform_roundtrip AD9833.initControl " SINE ").1 (Or.inl (by decide))
  · exact (ad9833_waveform_roundtrip AD9833.initControl "cosine").2 (by decide)

/-- C10: for every counter width configured through MDR1 (the width
`4 - (mdr1 & 3)` is between 1 and 4 bytes) and every raw big-endian byte
string of that width, `read_counter(signed=False)` returns the raw value
`v` in `[0, 2^(8n) - 1]`, and `read_counter(signed=True)` returns the
two's-complement reading: `v` when `v < 2^(8n-1)`, else `v - 2^(8n)`,
always within `[-2^(8n-1), 2^(8n-1) - 1]`. -/
theorem ls7366r_read_counter_twos_complement (mdr1 : ℕ) (raw : List ℕ)
    (hlen : raw.length = LS7366R.nbytesOfMdr1 mdr1)
    (hbytes : ∀ b ∈ raw, b < 256) :
    (1 ≤ LS7366R.nbytesOfMdr1 mdr1 ∧ LS7366R.nbytesOfMdr1 mdr1 ≤ 4) ∧
    (LS7366R.read_counter (LS7366R.nbytesOfMdr1 mdr1) raw false =
        (LS7366R.fromBytesBE raw : ℤ) ∧
      (0 : ℤ) ≤ LS7366R.read_counter (LS7366R.nbytesOfMdr1 mdr1) raw false ∧
      LS7366R.read_counter (LS7366R.nbytesOfMdr1 mdr1) raw false <
        2 ^ (8 * LS7366R.nbytesOfMdr1 mdr1)) ∧
    (LS7366R.read_counter (LS7366R.nbytesOfMdr1 mdr1) raw true =
        (if (LS7366R.fromBytesBE raw : ℤ) < 2 ^ (8 * LS7366R.nbytesOfMdr1 mdr1 - 1)
          then (LS7366R.fromBytesBE raw : ℤ)
          else (LS7366R.fromBytesBE raw : ℤ) - 2 ^ (8 * LS7366R.nbytesOfMdr1 mdr1)) ∧
      -(2 ^ (8 * LS7366R.nbytesOfMdr1 mdr1 - 1) : ℤ) ≤
        LS7366R.read_counter (LS7366R.nbytesOfMdr1 mdr1) raw true ∧
      LS7366R.read_counter (LS7366R.nbytesOfMdr1 mdr1) raw true <
        2 ^ (8 * LS7366R.nbytesOfMdr1 mdr1 - 1)) := by
  have hand : mdr1 &&& 0x03 ≤ 3 := Nat.and_le_right
  have htop : 1 ≤ LS7366R.nbytesOfMdr1 mdr1 ∧ LS7366R.nbytesOfMdr1 mdr1 ≤ 4 := by
    unfold LS7366R.nbytesOfMdr1
    omega
  have hval : LS7366R.fromBytesBE raw < 2 ^ (8 * LS7366R.nbytesOfMdr1 mdr1) := by
    have h1 := foldl_bytes_lt raw 0 hbytes
    unfold LS7366R.fromBytesBE
    calc List.foldl (fun acc b => acc * 256 + b) 0 raw
        < (0 + 1) * 256 ^ raw.length := h1
    _ = 2 ^ (8 * LS7366R.nbytesOfMdr1 mdr1) := by
        rw [hlen, Nat.zero_add, one_mul, show (256 : ℕ) = 2 ^ 8 by norm_num,
          ← pow_mul]
  have huns : LS7366R.read_counter (LS7366R.nbytesOfMdr1 mdr1) raw false =
      (LS7366R.fromBytesBE raw : ℤ) := by
    unfold LS7366R.read_counter
    simp
  have hexp : 8 * LS7366R.nbytesOfMdr1 mdr1 - 1 + 1 =
      8 * LS7366R.nbytesOfMdr1 mdr1 := by omega
  have hsign : (LS7366R.fromBytesBE raw &&&
        (1 <<< (8 * LS7366R.nbytesOfMdr1 mdr1 - 1)) ≠ 0) ↔
      2 ^ (8 * LS7366R.nbytesOfMdr1 mdr1 - 1) ≤ LS7366R.fromBytesBE raw := by
    rw [show (1 <<< (8 * LS7366R.nbytesOfMdr1 mdr1 - 1) : ℕ) =
        2 ^ (8 * LS7366R.nbytesOfMdr1 mdr1 - 1) by simp [Nat.shiftLeft_eq]]
    rw [and_two_pow_ne_zero]
    exact testBit_top_iff _ _ (by rw [hexp]; exact hval)
  have hpow2 : (2 : ℤ) ^ (8 * LS7366R.nbytesOfMdr1 mdr1) =
      2 * 2 ^ (8 * LS7366R.nbytesOfMdr1 mdr1 - 1) := by
    conv_lhs => rw [← hexp]
    rw [pow_succ]
    ring
  have hcast : ((1 <<< (8 * LS7366R.nbytesOfMdr1 mdr1) : ℕ) : ℤ) =
      2 ^ (8 * LS7366R.nbytesOfMdr1 mdr1) := by
    push_cast [Nat.shiftLeft_eq]
    ring
  refine ⟨htop, ⟨huns, ?_, ?_⟩, ?_⟩
  · rw [huns]
    exact_mod_cast Int.natCast_nonneg _
  · rw [huns]
    exact_mod_cast hval
  · by_cases hge : 2 ^ (8 * LS7366R.nbytesOfMdr1 mdr1 - 1) ≤ LS7366R.fromBytesBE raw
    · have heq : LS7366R.read_counter (LS7366R.nbytesOfMdr1 mdr1) raw true =
          (LS7366R.fromBytesBE raw : ℤ) -
            2 ^ (8 * LS7366R.nbytesOfMdr1 mdr1) := by
        unfold LS7366R.read_counter
        rw [if_neg (by simp), if_pos (hsign.mpr hge), hcast]
      have hgeZ : (2 : ℤ) ^ (8 * LS7366R.nbytesOfMdr1 mdr1 - 1) ≤
          (LS7366R.fromBytesBE raw : ℤ) := by exact_mod_cast hge
      have hvalZ : (LS7366R.fromBytesBE raw : ℤ) <
          2 ^ (8 * LS7366R.nbytesOfMdr1 mdr1) := by exact_mod_cast hval
      refine ⟨?_, ?_, ?_⟩
      · rw [heq, if_neg (not_lt.mpr hgeZ)]
      · rw [heq]
        omega
      · rw [heq]
        omega
    · have hlt : LS7366R.fromBytesBE raw <
          2 ^ (8 * LS7366R.nbytesOfMdr1 mdr1 - 1) := lt_of_not_ge hge
      have heq : LS7366R.read_counter (LS7366R.nbytesOfMdr1 mdr1) raw true =
          (LS7366R.fromBytesBE raw : ℤ) := by
        unfold LS7366R.read_counter
        rw [if_neg (by simp), if_neg (by simp [hsign, hge])]
      have hltZ : (LS7366R.fromBytesBE raw : ℤ) <
          2 ^ (8 * LS7366R.nbytesOfMdr1 mdr1 - 1) := by exact_mod_cast hlt
      refine ⟨?_, ?_, ?_⟩
      · rw [heq, if_pos hltZ]
      · rw [heq]
        have : (0 : ℤ) ≤ (LS7366R.fromBytesBE raw : ℤ) := Int.natCast_nonneg _
        omega
      · rw [heq]
        exact hltZ

/-- Witness for C10: a 2-byte counter (MDR1 low bits `10`) reading the
bytes `0x80 0x00` stays within the signed range. -/
theorem ls7366r_read_counter_witness :
    -(2 ^ (8 * LS7366R.nbytesOfMdr1 2 - 1) : ℤ) ≤
      LS7366R.read_counter (LS7366R.nbytesOfMdr1 2) [128, 0] true ∧
    LS7366R.read_counter (LS7366R.nbytesOfMdr1 2) [128, 0] true <
      2 ^ (8 * LS7366R.nbytesOfMdr1 2 - 1) :=
  (ls7366r_read_counter_twos_complement 2 [128, 0] (by decide)
    (by decide)).2.2.2

/-- C1 counterexample: in the rc_circuit lab the device arrays each hold
`n2 = 2000` samples, so `read_samples` sends the count line `2000`
followed by 4000 value lines (2000 times then 2000 volts), not 2000. -/
theorem serial_count_counterexample :
    (SerialShuttle.deviceReply (List.replicate 2000 (0 : ℤ))
        (List.replicate 2000 (0 : ℤ))).head? = some 2000 ∧
    (SerialShuttle.deviceReply (List.replicate 2000 (0 : ℤ))
        (List.replicate 2000 (0 : ℤ))).length = 1 + 4000 ∧
    (4000 : ℕ) ≠ 2000 := by
  refine ⟨?_, ?_, by norm_num⟩
  · unfold SerialShuttle.deviceReply
    rw [List.head?_cons]
    norm_num [List.length_replicate]
  · unfold SerialShuttle.deviceReply
    simp only [List.length_cons, List.length_append, List.length_replicate]

/-- C1 (amended): the device replies with the count `N` followed by
`2 * N` newline-terminated decimal values (the `times` array then the
`volts` array, `N` each), and the host consumes exactly that reply —
it parses `N`, reads `N + N` value lines, and leaves the rest of the
stream untouched. -/
theorem serial_count_amended (times volts rest : List ℤ)
    (hlen : volts.length = times.length) :
    SerialShuttle.hostConsume (SerialShuttle.deviceReply times volts ++ rest) =
      some (((times.length : ℤ), (times, volts)), rest) ∧
    (SerialShuttle.deviceReply times volts).length = 1 + 2 * times.length := by
  constructor
  · rw [show SerialShuttle.deviceReply times volts ++ rest =
        ((times.length : ℤ)) :: (times ++ (volts ++ rest)) by
      simp [SerialShuttle.deviceReply]]
    simp only [SerialShuttle.hostConsume]
    rw [if_pos (Int.natCast_nonneg _)]
    have hk : ((times.length : ℤ)).toNat = times.length := Int.toNat_natCast _
    have hcond : ((times.length : ℤ)).toNat + ((times.length : ℤ)).toNat ≤
        (times ++ (volts ++ rest)).length := by
      rw [hk]
      simp only [List.length_append, hlen]
      omega
    rw [if_pos hcond]
    have e1 : (times ++ (volts ++ rest)).take ((times.length : ℤ)).toNat = times := by
      rw [hk]
      exact List.take_left times (volts ++ rest)
    have e2 : (times ++ (volts ++ rest)).drop ((times.length : ℤ)).toNat =
        volts ++ rest := by
      rw [hk]
      exact List.drop_left times (volts ++ rest)
    rw [e1, e2]
    have e3 : (volts ++ rest).take ((times.length : ℤ)).toNat = volts := by
      rw [hk]
      exact List.take_left' hlen
    have e4 : (volts ++ rest).drop ((times.length : ℤ)).toNat = rest := by
      rw [hk]
      exact List.drop_left' hlen
    rw [e3, e4]
  · simp [SerialShuttle.deviceReply, hlen]
    omega

/-- Witness for the amended C1 at a concrete exchange. -/
theorem serial_count_amended_witness :
    SerialShuttle.hostConsume (SerialShuttle.deviceReply [1, 2] [3, 4] ++ [9]) =
      some ((2, ([1, 2], [3, 4])), [9]) ∧
    (SerialShuttle.deviceReply [1, 2] [3, 4]).length = 1 + 2 * 2 := by
  have h := serial_count_amended [1, 2] [3, 4] [9] rfl
  exact ⟨h.1, h.2⟩

/-- C2 counterexample: the `np.savetxt` call of
`signal_gen/plot_samples.py` persists `ad9833_volts.txt` with a single
column, numpy default format `%.18e` (scientific, not fixed-point) and
default blank delimiter, so not every persisted data file is a
two-column comma-delimited fixed-precision CSV. -/
theorem csv_format_counterexample :
    Persist.ad9833VoltsCall ∈ Persist.savetxtCalls ∧
    ¬(Persist.ad9833VoltsCall.ncols = 2 ∧
      Persist.ad9833VoltsCall.delimiter = "," ∧
      Persist.isFixedPointFmt Persist.ad9833VoltsCall.fmt = true) := by
  decide

/-- C2 (amended): every persisted data file except `ad9833_volts.txt` is
a two-column comma-delimited fixed-precision CSV; that one file is
written with one column and numpy defaults (`%.18e`, blank delimiter). -/
theorem csv_format_amended :
    (∀ call ∈ Persist.savetxtCalls, call ≠ Persist.ad9833VoltsCall →
      call.ncols = 2 ∧ call.delimiter = "," ∧
        Persist.isFixedPointFmt call.fmt = true) ∧
    Persist.ad9833VoltsCall.ncols = 1 ∧
    Persist.ad9833VoltsCall.fmt = "%.18e" ∧
    Persist.ad9833VoltsCall.delimiter = " " := by
  decide

/-- Witness for the amended C2 at the rc_circuit call site. -/
theorem csv_format_amended_witness :
    (⟨"Session 05/rc_circuit/read_samples.py", "samples.csv", 2, "%3.6f",
        ","⟩ : Persist.SavetxtCall).ncols = 2 ∧
    (⟨"Session 05/rc_circuit/read_samples.py", "samples.csv", 2, "%3.6f",
        ","⟩ : Persist.SavetxtCall).delimiter = "," ∧
    Persist.isFixedPointFmt
      (⟨"Session 05/rc_circuit/read_samples.py", "samples.csv", 2, "%3.6f",
        ","⟩ : Persist.SavetxtCall).fmt = true :=
  csv_format_amended.1 _ (by decide) (by decide)

/-- C4: inside the biot_savart sampling loop, a `RuntimeError` or
`OSError` raised by the magnetometer read never escapes the loop body
(whatever the re-initialization does), and when the re-initialization
either succeeds or itself fails with `RuntimeError`/`OSError`, the body
completes normally and sampling continues. -/
theorem biot_savart_errors_caught (mr : Except PyExc ℚ)
    (ri : Except PyExc BiotSavart.MagState) (st : BiotSavart.MagState) :
    (∀ e, BiotSavart.magSampleStep mr ri st = .error e →
      e ≠ PyExc.runtimeError ∧ e ≠ PyExc.osError) ∧
    ((mr = .error PyExc.runtimeError ∨ mr = .error PyExc.osError) →
      (ri = .error PyExc.runtimeError ∨ ri = .error PyExc.osError ∨
        (∃ st2, ri = .ok st2)) →
      ∃ st3, BiotSavart.magSampleStep mr ri st = .ok st3) := by
  constructor
  · intro e he
    rcases mr with e1 | m
    · rcases ri with e2 | st2
      · cases e1 <;> cases e2 <;>
          simp_all [BiotSavart.magSampleStep, BiotSavart.caughtByHandler] <;>
          (try subst he) <;> (try decide)
      · cases e1 <;>
          simp_all [BiotSavart.magSampleStep, BiotSavart.caughtByHandler] <;>
          (try subst he) <;> (try decide)
    · simp [BiotSavart.magSampleStep] at he
  · intro h1 h2
    rcases h1 with h | h <;> subst h <;>
      (rcases h2 with h2a | h2a | ⟨st2, h2a⟩ <;> subst h2a) <;>
      exact ⟨_, rfl⟩

/-- Witness for C4: a magnetometer `RuntimeError` with a successful
re-initialization lets sampling continue. -/
theorem biot_savart_errors_caught_witness :
    ∃ st3, BiotSavart.magSampleStep (.error PyExc.runtimeError)
      (.ok ⟨1, 0⟩) ⟨0, 0⟩ = .ok st3 :=
  (biot_savart_errors_caught (.error PyExc.runtimeError) (.ok ⟨1, 0⟩)
    ⟨0, 0⟩).2 (Or.inl rfl) (Or.inr (Or.inr ⟨⟨1, 0⟩, rfl⟩))

/-- C5 counterexample: the host serial port is opened with
`timeout=120`, so a read on a stream that never delivers a newline
returns (the partial buffer) once the timer expires, instead of blocking
until a full line arrives. -/
theorem serial_timeout_counterexample :
    HostSerial.hostSerialConfig.timeoutSeconds = some 120 ∧
    HostSerial.readlineModel HostSerial.hostSerialConfig.timeoutSeconds
        [Char.ofNat 97] = some [Char.ofNat 97] ∧
    ([Char.ofNat 97].contains '\n') = false := by
  decide

/-- C5 (amended): every host script opens its serial port with a fixed
120-second timeout, so a read always returns — a full line when a
newline arrives, otherwise the partial buffer at timeout; only a
`timeout=None` port (which no script uses) would block until a full line
arrives. -/
theorem serial_timeout_amended :
    HostSerial.hostSerialConfig.timeoutSeconds = some 120 ∧
    (∀ incoming, ∃ l, HostSerial.readlineModel
      HostSerial.hostSerialConfig.timeoutSeconds incoming = some l) ∧
    (∀ incoming, incoming.contains '\n' = true →
      HostSerial.readlineModel HostSerial.hostSerialConfig.timeoutSeconds
          incoming =
        some (incoming.takeWhile (fun c => c ≠ '\n') ++ ['\n'])) ∧
    (∀ incoming l, HostSerial.readlineModel none incoming = some l →
      l.contains '\n' = true) := by
  refine ⟨rfl, ?_, ?_, ?_⟩
  · intro incoming
    unfold HostSerial.readlineModel
    by_cases h : incoming.contains '\n'
    · exact ⟨_, by rw [if_pos h]⟩
    · exact ⟨incoming, by rw [if_neg h]; rfl⟩
  · intro incoming h
    unfold HostSerial.readlineModel
    rw [if_pos h]
  · intro incoming l hl
    unfold HostSerial.readlineModel at hl
    by_cases h : incoming.contains '\n'
    · rw [if_pos h] at hl
      obtain rfl : incoming.takeWhile (fun c => c ≠ '\n') ++ ['\n'] = l :=
        Option.some.inj hl
      simp [List.contains, List.elem_eq_mem]
    · rw [if_neg h] at hl
      exact absurd hl (by simp)

/-- Witness for the amended C5: with the configured 120 s timeout, a
stream carrying a full line is read back as that line. -/
theorem serial_timeout_amended_witness :
    HostSerial.readlineModel HostSerial.hostSerialConfig.timeoutSeconds
        [Char.ofNat 97, '\n', Char.ofNat 98] =
      some ([Char.ofNat 97, '\n', Char.ofNat 98].takeWhile
        (fun c => c ≠ '\n') ++ ['\n']) :=
  serial_timeout_amended.2.2.1 [Char.ofNat 97, '\n', Char.ofNat 98] (by decide)

/-- C6: the resistor-number prompt loop never ends with an uncaught
exception (a non-integer input raises `ValueError`, which is caught and
re-prompted), it accepts only an integer between 1 and 3 inclusive, and
it stops at the first input line that parses to an integer in 1..3. -/
theorem resistor_prompt_safe (inputs : List String) :
    (∀ e, OhmsLaw.resistorPrompt inputs ≠ .error e) ∧
    (∀ k, OhmsLaw.resistorPrompt inputs = .ok (some k) → 1 ≤ k ∧ k ≤ 3) ∧
    (∀ s rest k, inputs = s :: rest → OhmsLaw.pyInt s = some k →
      1 ≤ k → k ≤ 3 → OhmsLaw.resistorPrompt inputs = .ok (some k)) := by
  refine ⟨?_, ?_, ?_⟩
  · induction inputs with
    | nil => intro e h; simp [OhmsLaw.resistorPrompt] at h
    | cons s tl ih =>
      intro e h
      unfold OhmsLaw.resistorPrompt OhmsLaw.promptStep at h
      cases hp : OhmsLaw.pyInt s with
      | none =>
        rw [hp] at h
        exact ih e h
      | some k =>
        rw [hp] at h
        by_cases hc : 1 ≤ k ∧ k ≤ 3
        · simp [hc] at h
        · simp [hc] at h
          exact ih e h
  · induction inputs with
    | nil => intro k h; simp [OhmsLaw.resistorPrompt] at h
    | cons s tl ih =>
      intro k h
      unfold OhmsLaw.resistorPrompt OhmsLaw.promptStep at h
      cases hp : OhmsLaw.pyInt s with
      | none =>
        rw [hp] at h
        exact ih k h
      | some k0 =>
        rw [hp] at h
        by_cases hc : 1 ≤ k0 ∧ k0 ≤ 3
        · simp [hc] at h
          obtain rfl : k0 = k := h
          exact hc
        · simp [hc] at h
          exact ih k h
  · intro s rest k hin hp h1 h3
    subst hin
    unfold OhmsLaw.resistorPrompt OhmsLaw.promptStep
    rw [hp]
    simp [h1, h3]

/-- Witness for C6: the inputs `"abc"`, `"7"`, `"2"` make the loop raise
and catch one `ValueError`, reject 7, then accept 2; the accepted value
is in 1..3. -/
theorem resistor_prompt_safe_witness :
    (1 : ℤ) ≤ 2 ∧ (2 : ℤ) ≤ 3 :=
  (resistor_prompt_safe ["abc", "7", "2"]).2.1 2 (by decide)

/-- Partition lemma for the Monte Carlo masks: the points with
`d <= 1.0` and the points with `d > 1.0` exactly split the sample. -/
theorem mcCircle_partition (pts : List (ℚ × ℚ)) :
    McCircle.insideCount pts + McCircle.outsideCount pts = pts.length := by
  unfold McCircle.insideCount McCircle.outsideCount
  induction pts with
  | nil => simp
  | cons p tl ih =>
    by_cases h : McCircle.dsq p ≤ 1
    · have h2 : ¬(1 < McCircle.dsq p) := not_lt.mpr h
      simp only [List.filter_cons, List.length_cons]
      simp [h, h2] at ih ⊢
      omega
    · have h2 : 1 < McCircle.dsq p := lt_of_not_ge h
      simp only [List.filter_cons, List.length_cons]
      simp [h, h2] at ih ⊢
      omega

/-- C7: `est_area` equals 4 times the fraction of sampled points with
`x^2 + y^2 <= 1`, every sampled point is classified inside
(`d <= 1`) or outside (`d > 1`) but never both, and each coordinate
`rng.random() * 2 - 1` lies in `[-1, 1)`. -/
theorem mc_circle_estimate (pts : List (ℚ × ℚ))
    (hlen : pts.length = McCircle.dots) :
    McCircle.est_area pts =
      4 * ((McCircle.insideCount pts : ℚ) / (pts.length : ℚ)) ∧
    McCircle.insideCount pts + McCircle.outsideCount pts = pts.length ∧
    (∀ p ∈ pts, (McCircle.dsq p ≤ 1 ∧ ¬(1 < McCircle.dsq p)) ∨
      (1 < McCircle.dsq p ∧ ¬(McCircle.dsq p ≤ 1))) ∧
    (∀ u : ℚ, 0 ≤ u → u < 1 →
      -1 ≤ McCircle.sample u ∧ McCircle.sample u < 1) := by
  refine ⟨?_, mcCircle_partition pts, ?_, ?_⟩
  · unfold McCircle.est_area
    rw [← hlen]
    ring
  · intro p _
    by_cases h : McCircle.dsq p ≤ 1
    · exact Or.inl ⟨h, not_lt.mpr h⟩
    · exact Or.inr ⟨lt_of_not_ge h, h⟩
  · intro u h0 h1
    unfold McCircle.sample
    constructor <;> linarith

/-- Witness for C7 at a concrete sample set of the configured size. -/
theorem mc_circle_estimate_witness :
    McCircle.est_area (List.replicate 102400 ((0 : ℚ), (0 : ℚ))) =
      4 * ((McCircle.insideCount (List.replicate 102400 ((0 : ℚ), (0 : ℚ))) : ℚ) /
        ((List.replicate 102400 ((0 : ℚ), (0 : ℚ))).length : ℚ)) :=
  (mc_circle_estimate (List.replicate 102400 ((0 : ℚ), (0 : ℚ)))
    (by rw [List.length_replicate]; rfl)).1

/-- C8: at each of the 100 linspace times, `v_c i` is exactly the RC
charge curve `V_s * (1 - exp (-t / (R * C)))` with `V_s = 3.3`,
`R = 10000`, `C = 1e-5`; the 100 times are equally spaced over `[0, 1]`:
`t 0 = 0`, `t 99 = 1`, consecutive spacing `1 / 99`, and every time lies
in `[0, 1]`. -/
theorem rc_charge_curve :
    (∀ i : ℕ, i < 100 → RcCharge.v_c i =
      3.3 * (1 - Real.exp (-((i : ℝ) / 99) / (10000 * (1 / 100000))))) ∧
    RcCharge.t 0 = 0 ∧ RcCharge.t 99 = 1 ∧
    (∀ i : ℕ, i + 1 < 100 → RcCharge.t (i + 1) - RcCharge.t i = 1 / 99) ∧
    (∀ i : ℕ, i < 100 → 0 ≤ RcCharge.t i ∧ RcCharge.t i ≤ 1) := by
  have ht : ∀ i : ℕ, RcCharge.t i = (i : ℚ) / 99 := by
    intro i
    unfold RcCharge.t RcCharge.linspace
    push_cast
    ring
  refine ⟨?_, ?_, ?_, ?_, ?_⟩
  · intro i _
    unfold RcCharge.v_c
    have h1 : ((RcCharge.t i : ℚ) : ℝ) = (i : ℝ) / 99 := by
      rw [ht i]
      push_cast
      ring
    have h2 : ((RcCharge.tau : ℚ) : ℝ) = 10000 * (1 / 100000) := by
      unfold RcCharge.tau RcCharge.R RcCharge.C
      push_cast
      norm_num
    have h3 : ((RcCharge.V_s : ℚ) : ℝ) = 3.3 := by
      unfold RcCharge.V_s
      push_cast
      norm_num
    rw [h1, h2, h3]
  · rw [ht 0]
    norm_num
  · rw [ht 99]
    norm_num
  · intro i _
    rw [ht (i + 1), ht i]
    push_cast
    ring
  · intro i hi
    rw [ht i]
    constructor
    · positivity
    · rw [div_le_one (by norm_num : (0 : ℚ) < 99)]
      exact_mod_cast Nat.le_of_lt_succ hi

/-- Witness for C8: the first spacing and the first curve value. -/
theorem rc_charge_curve_witness :
    RcCharge.t 1 - RcCharge.t 0 = 1 / 99 ∧
    RcCharge.v_c 0 =
      3.3 * (1 - Real.exp (-((0 : ℕ) / 99 : ℝ) / (10000 * (1 / 100000)))) :=
  ⟨rc_charge_curve.2.2.2.1 0 (by norm_num),
    rc_charge_curve.1 0 (by norm_num)⟩


